import Mathlib

/-!
Verification of the receipt-extraction repository (`extract.py`, `site.py`).

The development shallowly embeds the Python source:

* JSON-ish Python values are modelled by `Option Val` — `none` is Python's
  `None` / JSON `null`, `some v` a non-null value.
* Python `dict`s are modelled by association lists together with the
  first-match lookup `dget` and the in-place-update-or-append `dset`,
  matching `dict.__getitem__`/`__setitem__` on dicts with unique keys.
* The external effects of the pipeline (OCR, the LLM REST call, and the
  outputs of pure sub-steps whose internals a claim does not depend on)
  are passed to the pipeline model as explicit inputs.
-/

/-- Non-null JSON values occurring in the pipeline's records: integers
(odometer readings, the integral amounts used in the reconciliation
examples), strings (dates, company names, invoice numbers) and the bounded
string list used for `work_description`. -/
inductive Val where
  | vInt (n : Int)
  | vStr (s : String)
  | vBool (b : Bool)
  | vStrList (l : List String)
deriving DecidableEq, Repr

/-- First-match lookup in an association list; `none` when the key is
absent.  On lists with unique keys this is exactly Python `k in d` /
`d[k]` combined. -/
def dget {α : Type} : List (String × α) → String → Option α
  | [], _ => none
  | (k, v) :: rest, key => if k = key then some v else dget rest key

/-- Python `d[k] = v`: replace the value at the first occurrence of the
key, keeping its position, or append the binding when the key is absent. -/
def dset {α : Type} : List (String × α) → String → α → List (String × α)
  | [], key, v => [(key, v)]
  | (k, w) :: rest, key, v =>
      if k = key then (key, v) :: rest else (k, w) :: dset rest key v

/-- Python `d.get(k)` on a JSON object whose stored values may themselves
be `null`: an absent key and a stored `null` both give `None`. -/
def pyGet (m : List (String × Option Val)) (key : String) : Option Val :=
  match dget m key with
  | some v => v
  | none => none

/-! ## Reconciliation (`site.py`, `ServiceHistorySiteManager.load_service_data_with_overrides`) -/

/-- The parsed `override.json`: a sparse `ground_truth` object of
field-level corrections plus the optional `reason` string. -/
structure OverrideData where
  ground_truth : List (String × Option Val)
  reason : Option String
deriving DecidableEq, Repr

/-- The `override_info` block attached to the reconciled record. An
audit entry is the pair `(original, override)`. -/
structure OverrideInfo where
  has_overrides : Bool
  overridden_fields : List (String × (Option Val × Option Val))
  reason : Option String
deriving DecidableEq, Repr

/-- The reconciled record: final ground-truth fields plus the audit
block. -/
structure VerifiedData where
  ground_truth : List (String × Option Val)
  override_info : OverrideInfo
deriving DecidableEq, Repr

/-- The `for field, new_value in override_ground_truth.items()` loop of
`load_service_data_with_overrides`: `orig` is the copy
`original_ground_truth` taken before the loop, `gt` the ground-truth dict
being updated in place, `acc` the `overridden_fields` accumulator. -/
def applyOverrideFields (orig : List (String × Option Val)) :
    List (String × Option Val) → List (String × Option Val) →
    List (String × (Option Val × Option Val)) →
    List (String × Option Val) × List (String × (Option Val × Option Val))
  | [], gt, acc => (gt, acc)
  | (field, newValue) :: rest, gt, acc =>
      let originalValue := pyGet orig field
      if originalValue = newValue then
        applyOverrideFields orig rest gt acc
      else
        applyOverrideFields orig rest (dset gt field newValue)
          (acc ++ [(field, (originalValue, newValue))])

/-- `load_service_data_with_overrides` with the file I/O factored out:
`gt` is the `ground_truth` object of `verified.json`, `ov` is
`override.json` when that file exists. -/
def load_service_data_with_overrides (gt : List (String × Option Val))
    (ov : Option OverrideData) : VerifiedData :=
  match ov with
  | none =>
      { ground_truth := gt,
        override_info :=
          { has_overrides := false, overridden_fields := [], reason := none } }
  | some od =>
      let applied := applyOverrideFields gt od.ground_truth gt []
      { ground_truth := applied.1,
        override_info :=
          { has_overrides := true, overridden_fields := applied.2,
            reason := od.reason } }

/-! ## Odometer parsing (`extract.py`, `ReceiptExtractor._parse_odometer`) -/

/-- Decimal digits of `n`, least significant first.  The first argument
is recursion fuel; it is always instantiated with `n` itself, which
suffices because the value shrinks by a factor of ten each step. -/
def digitsRevAux : Nat → Nat → List Nat
  | _, 0 => []
  | 0, _ + 1 => []
  | fuel + 1, n + 1 => ((n + 1) % 10) :: digitsRevAux fuel ((n + 1) / 10)

/-- The decimal representation of `n` as a digit list, most significant
digit first: the model of Python `str(n)` for positive `n`. -/
def decimalDigits (n : Nat) : List Nat := (digitsRevAux n n).reverse

/-- Python `int(s)` on a decimal digit string, most significant digit
first. -/
def natOfDigits (l : List Nat) : Nat := l.foldl (fun a d => 10 * a + d) 0

/-- `ReceiptExtractor._parse_odometer` on the integer parsed from the
captured digit group: when the reading exceeds 1,000,000 and its decimal
representation starts with digit 2, the leading digit is stripped
(`int(str(km)[1:])`) and the stripped value is adopted only when it lies
strictly between 200000 and 500000; otherwise the reading is returned
unchanged. -/
def parse_odometer (km : Nat) : Nat :=
  if km > 1000000 ∧ (decimalDigits km).head? = some 2 then
    let fixed_km := natOfDigits (decimalDigits km).tail
    if 200000 < fixed_km ∧ fixed_km < 500000 then fixed_km else km
  else km

/-! ## Date parsing (`extract.py`, `_parse_finnish_date` / `_parse_iso_date`) -/

/-- Python `int(s)` on a captured group of digit characters. -/
def natOfCharDigits (l : List Char) : Nat :=
  l.foldl (fun a c => 10 * a + (c.toNat - 48)) 0

/-- Gregorian leap-year rule used by `datetime`. -/
def isLeapYear (y : Nat) : Bool := y % 4 = 0 ∧ (y % 100 ≠ 0 ∨ y % 400 = 0)

/-- Length of a month as checked by the `datetime` constructor. -/
def daysInMonth (y m : Nat) : Nat :=
  if m = 2 then (if isLeapYear y then 29 else 28)
  else if m = 4 ∨ m = 6 ∨ m = 9 ∨ m = 11 then 30
  else 31

/-- The validity check performed by `datetime(year, month, day)`
(`MINYEAR = 1`, `MAXYEAR = 9999`); an invalid triple raises `ValueError`,
which the date parsers turn into `None`. -/
def validDate (y m d : Nat) : Bool :=
  1 ≤ y ∧ y ≤ 9999 ∧ 1 ≤ m ∧ m ≤ 12 ∧ 1 ≤ d ∧ d ≤ daysInMonth y m

/-- Decimal digit characters of `n`, most significant first. -/
def decString (n : Nat) : List Char :=
  (decimalDigits n).map (fun d => Char.ofNat (d + 48))

/-- Zero padding to the given width, as done by `strftime` for `%m`/`%d`
(and for `%Y` on four-digit years, the only years the theorems below
quantify over). -/
def zeroPad (width n : Nat) : List Char :=
  List.replicate (width - (decString n).length) '0' ++ decString n

/-- Model of `date_obj.strftime("%Y-%m-%d")`. -/
def formatYMD (y m d : Nat) : String :=
  String.mk (zeroPad 4 y ++ ['-'] ++ zeroPad 2 m ++ ['-'] ++ zeroPad 2 d)

/-- `ReceiptExtractor._parse_finnish_date` on the three captured groups
of `\b(\d{1,2})\.(\d{1,2})\.(\d{4}|\d{2})\b`: two-digit years are
prefixed with "20" when below 50 and with "19" otherwise, the triple is
validated by the `datetime` constructor, and a valid date is formatted as
ISO `YYYY-MM-DD` while an invalid one yields `None`. -/
def parse_finnish_date (day month year : List Char) : Option String :=
  let year2 :=
    if year.length = 2 then
      (if natOfCharDigits year < 50 then '2' :: '0' :: year
       else '1' :: '9' :: year)
    else year
  let y := natOfCharDigits year2
  let mo := natOfCharDigits month
  let d := natOfCharDigits day
  if validDate y mo d then some (formatYMD y mo d) else none

/-- `ReceiptExtractor._parse_iso_date` on the captured groups of
`\b(\d{4})-(\d{2})-(\d{2})\b`. -/
def parse_iso_date (year month day : List Char) : Option String :=
  let y := natOfCharDigits year
  let mo := natOfCharDigits month
  let d := natOfCharDigits day
  if validDate y mo d then some (formatYMD y mo d) else none

/-- The `date` rule chain of `_run_parsing`: `m1` holds the captured
groups (day, month, year) of the first match of the Finnish pattern,
`m2` the captured groups (year, month, day) of the first match of the
ISO pattern; each is `none` when its regex finds no match.  The loop
breaks at the first rule whose regex matched and whose parser returned a
non-`None` value, so a rejected normalization falls through to the next
rule. -/
def dateFieldChain (m1 : Option (List Char × List Char × List Char))
    (m2 : Option (List Char × List Char × List Char)) : Option String :=
  match m1.bind (fun g => parse_finnish_date g.1 g.2.1 g.2.2) with
  | some v => some v
  | none => m2.bind (fun g => parse_iso_date g.1 g.2.1 g.2.2)

/-! ## The first `odometer_km` regex
(`Mittarilukema:.*?\n+(\d{6})`, `re.IGNORECASE | re.MULTILINE`) -/

/-- Case-insensitive literal match at the head of the input, returning
the remaining input. -/
def matchLit : List Char → List Char → Option (List Char)
  | [], rest => some rest
  | _ :: _, [] => none
  | p :: ps, c :: cs => if p.toLower = c.toLower then matchLit ps cs else none

/-- `\d{k}` at the head of the input: exactly `k` digit characters,
returned together with the remaining input. -/
def takeDigits : Nat → List Char → Option (List Char × List Char)
  | 0, rest => some ([], rest)
  | _ + 1, [] => none
  | k + 1, c :: rest =>
      if c.isDigit then (takeDigits k rest).map (fun p => (c :: p.1, p.2))
      else none

/-- `\n+(\d{6})` at the head of the input: one or more newlines (greedy,
with backtracking) followed by exactly six digit characters, which are
the captured group. -/
def matchNewlinesThenSixDigits : List Char → Option (List Char)
  | [] => none
  | c :: rest =>
      if c = '\n' then
        match matchNewlinesThenSixDigits rest with
        | some cap => some cap
        | none => (takeDigits 6 rest).map (fun p => p.1)
      else none

/-- `.*?\n+(\d{6})` at the head of the input: the lazy `.*?` (which does
not match newlines) first tries the rest of the pattern at the current
position and otherwise consumes one non-newline character. -/
def lazySkipToNewlineDigits : List Char → Option (List Char)
  | [] => none
  | c :: rest =>
      match matchNewlinesThenSixDigits (c :: rest) with
      | some cap => some cap
      | none => if c = '\n' then none else lazySkipToNewlineDigits rest

/-- `re.search` of `Mittarilukema:.*?\n+(\d{6})`: the leftmost position
at which the whole pattern matches, returning the captured six-digit
group. -/
def searchOdometerRule1 : List Char → Option (List Char)
  | [] => none
  | c :: rest =>
      match matchLit ("Mittarilukema:".toList) (c :: rest) with
      | some after =>
          match lazySkipToNewlineDigits after with
          | some cap => some cap
          | none => searchOdometerRule1 rest
      | none => searchOdometerRule1 rest

/-- The `odometer_km` rule chain of `_run_parsing`.  Rule 1 is the
anchored pattern above, whose parser `_parse_odometer` never returns
`None`, so a rule-1 match always ends the chain.  The outcomes of rules
2-4 (the value parsed at the first match of each regex, `none` when the
regex does not match the text) are supplied as `laterRules` and are
consulted, in order, only when rule 1 finds no match. -/
def odometer_from_text (text : List Char) (laterRules : List (Option Nat)) :
    Option Nat :=
  match searchOdometerRule1 text with
  | some cap => some (parse_odometer (natOfCharDigits cap))
  | none => laterRules.findSome? id


/-! ## The pipeline (`extract.py`, `ReceiptExtractor.process_pdf`) -/

/-- The pipeline mode selected by the command-line flags. -/
inductive Mode where
  | ocr_only
  | pattern_only
  | llm_only
  | full_pipeline
deriving DecidableEq, Repr

/-- `self.required_fields = {"date", "amount", "company"}`. -/
def requiredFields : List String := ["date", "amount", "company"]

/-- The per-field outcomes of the rule chains of `_run_parsing` on the
OCR text: for each of the six pattern fields, the first non-`None`
parser value, or `none` when every rule for the field failed.  Rule
parsers return non-null values, so a chain outcome is never a stored
null. -/
structure ParseOutcome where
  date : Option Val
  amount : Option Val
  vat_amount : Option Val
  invoice_number : Option Val
  odometer_km : Option Val
  company : Option Val
deriving DecidableEq, Repr

/-- `step["extracted_fields"]` built by `_run_parsing`: a field is
inserted exactly when its chain produced a non-`None` value, in the
iteration order of `self.patterns`. -/
def parsingFields (p : ParseOutcome) : List (String × Val) :=
  ([("date", p.date), ("amount", p.amount), ("vat_amount", p.vat_amount),
    ("invoice_number", p.invoice_number), ("odometer_km", p.odometer_km),
    ("company", p.company)]).filterMap
    (fun q => q.2.map (fun v => (q.1, v)))

/-- Outcome of the body of `LLMExtractor.extract_from_text`'s `try`
block: either the JSON object parsed from the model response (whose
values may include `null`), or the message of the exception raised by
the network call, the timeout, or the JSON parsing. -/
inductive LLMCall where
  | ok (fields : List (String × Option Val)) (raw : String)
  | exn (msg : String)
deriving DecidableEq, Repr

/-- The dictionary returned by `LLMExtractor.extract_from_text`. -/
structure LLMResp where
  extracted_fields : List (String × Option Val)
  missing_fields : List String
  error : Option String
  raw_response : Option String
deriving DecidableEq, Repr

/-- `LLMExtractor.extract_from_text`: a successful call returns the
parsed fields; any exception is caught and turned into an empty field
set with an explicit `error` entry — the function never raises. -/
def extract_from_text : LLMCall → LLMResp
  | .ok fields raw =>
      { extracted_fields := fields, missing_fields := [], error := none,
        raw_response := some raw }
  | .exn msg =>
      { extracted_fields := [], missing_fields := ["error"],
        error := some msg, raw_response := none }

/-- The step record built by `ReceiptExtractor._run_llm_extraction`. -/
structure LLMStep where
  extracted_fields : List (String × Option Val)
  missing_fields : List String
  error : Option String
deriving DecidableEq, Repr

/-- Environment of one `_run_llm_extraction` call: either the
`LLMExtractor` call runs and yields a `LLMCall` outcome, or an exception
is raised around it (e.g. a failing `import requests`), caught by the
step's own handler. -/
inductive LLMEnv where
  | call (c : LLMCall)
  | raise (msg : String)
deriving DecidableEq, Repr

/-- `self.required_fields - set(extracted.keys())` as the canonical list
of required fields absent from the given dict. -/
def missingRequired {α : Type} (fields : List (String × α)) : List String :=
  requiredFields.filter (fun f => (dget fields f).isNone)

/-- `ReceiptExtractor._run_llm_extraction`: on success the step record
carries the extracted fields and the missing required fields; when the
result carries an `error` key, or an exception reaches the step's
handler, the step keeps its initial empty field dict and records the
error message. -/
def run_llm_extraction : LLMEnv → LLMStep
  | .raise msg => { extracted_fields := [], missing_fields := [], error := some msg }
  | .call c =>
      let r := extract_from_text c
      match r.error with
      | some e => { extracted_fields := [], missing_fields := [], error := some e }
      | none =>
          { extracted_fields := r.extracted_fields,
            missing_fields := missingRequired r.extracted_fields,
            error := none }

/-- The LLM-fallback merge loop of `process_pdf` (full-pipeline mode):
for each missing required field, when the field is present in the LLM
dict with a non-`None` value, it is written into the final dict and its
source is recorded as "llm". -/
def mergeFallback (llm : List (String × Option Val)) :
    List String →
    List (String × Option Val) × List (String × String) →
    List (String × Option Val) × List (String × String)
  | [], acc => acc
  | f :: rest, (fields, sources) =>
      match pyGet llm f with
      | some v => mergeFallback llm rest (dset fields f (some v), dset sources f "llm")
      | none => mergeFallback llm rest (fields, sources)

/-- External inputs of one `process_pdf` run: the decoded OCR text when
the OCR step put a (possibly empty) text into its output (`none` models
an OCR exception, which leaves the output dict without a "text" key),
the rule-chain outcomes of `_run_parsing` on that text, the LLM
environment, and the value of `extract_work_description` on that text. -/
structure PipelineEnv where
  ocrText : Option String
  parse : ParseOutcome
  llm : LLMEnv
  work_desc : List String
deriving DecidableEq, Repr

/-- The truthiness test `ocr_result.get("output", {}).get("text")`:
false when the text is absent or empty (the base64 encoding of a text is
empty exactly when the text is). -/
def hasText : Option String → Bool
  | some t => !(t = "")
  | none => false

/-- The metadata of an `ExtractionResult`; `field_sources` is only
written when the run gets past the OCR check. -/
structure Metadata where
  error : Option String
  field_sources : Option (List (String × String))
deriving DecidableEq, Repr

/-- The result record built by `process_pdf`; `steps` lists the
`step_name`s appended to `processing_steps`, in order. -/
structure ExtractionResult where
  final_data : List (String × Option Val)
  steps : List String
  metadata : Metadata
deriving DecidableEq, Repr

/-- The per-mode extraction phase of `process_pdf`, producing
`final_extracted_fields`, `field_sources` and the list of step names run
so far.  In full-pipeline mode the LLM fallback is invoked only when at
least one required field is missing after pattern parsing, and its
values are merged only for those missing fields. -/
def stageOf (mode : Mode) (env : PipelineEnv) :
    List (String × Option Val) × List (String × String) × List String :=
  match mode with
  | .ocr_only => ([], [], ["ocr"])
  | .pattern_only =>
      let pf := parsingFields env.parse
      (pf.map (fun q => (q.1, some q.2)),
       pf.map (fun q => (q.1, "parsing")), ["ocr", "parsing"])
  | .llm_only =>
      let step := run_llm_extraction env.llm
      (step.extracted_fields,
       step.extracted_fields.map (fun q => (q.1, "llm")),
       ["ocr", "llm_extraction"])
  | .full_pipeline =>
      let pf := parsingFields env.parse
      let base := pf.map (fun q => (q.1, some q.2))
      let sources := pf.map (fun q => (q.1, "parsing"))
      let missing := missingRequired base
      if missing = [] then (base, sources, ["ocr", "parsing"])
      else
        let step := run_llm_extraction env.llm
        let merged := mergeFallback step.extracted_fields missing (base, sources)
        (merged.1, merged.2, ["ocr", "parsing", "llm_extraction"])

/-- The `work_description` addition of `process_pdf`: when
`extract_work_description` found anything, the list is written into both
the final dict and the source dict. -/
def addWorkDescription (work : List String)
    (fields : List (String × Option Val)) (sources : List (String × String)) :
    List (String × Option Val) × List (String × String) :=
  if work = [] then (fields, sources)
  else
    (dset fields "work_description" (some (Val.vStrList work)),
     dset sources "work_description" "parsing")

/-- `ReceiptExtractor.process_pdf` with file hashing and persistence
stripped: OCR check, per-mode extraction phase, LLM fallback merge, and
the `work_description` addition. -/
def process_pdf (mode : Mode) (env : PipelineEnv) : ExtractionResult :=
  if hasText env.ocrText = false then
    { final_data := [], steps := ["ocr"],
      metadata := { error := some "OCR failed to extract text", field_sources := none } }
  else
    let stage := stageOf mode env
    let withWork := addWorkDescription env.work_desc stage.1 stage.2.1
    { final_data := withWork.1, steps := stage.2.2,
      metadata := { error := none, field_sources := some withWork.2 } }

/-! ## Dictionary lemmas -/

theorem dget_dset_self {α : Type} (m : List (String × α)) (k : String) (v : α) :
    dget (dset m k v) k = some v := by
  induction m with
  | nil => simp [dget, dset]
  | cons p rest ih =>
      obtain ⟨k', w⟩ := p
      by_cases h : k' = k
      · simp [dget, dset, h]
      · simp [dget, dset, h, ih]

theorem dget_dset_ne {α : Type} (m : List (String × α)) (k k' : String) (v : α)
    (h : k ≠ k') : dget (dset m k v) k' = dget m k' := by
  induction m with
  | nil => simp [dget, dset, h]
  | cons p rest ih =>
      obtain ⟨k'', w⟩ := p
      by_cases h2 : k'' = k
      · subst h2
        simp [dget, dset, h]
      · simp [dget, dset, h2, ih]

theorem keys_dset_congr {α β : Type} (m1 : List (String × α))
    (m2 : List (String × β)) (k : String) (v : α) (w : β)
    (h : m1.map Prod.fst = m2.map Prod.fst) :
    (dset m1 k v).map Prod.fst = (dset m2 k w).map Prod.fst := by
  induction m1 generalizing m2 with
  | nil =>
      cases m2 with
      | nil => simp [dset]
      | cons q rest2 => simp at h
  | cons p rest ih =>
      cases m2 with
      | nil => simp at h
      | cons q rest2 =>
          obtain ⟨k1, v1⟩ := p
          obtain ⟨k2, v2⟩ := q
          simp at h
          obtain ⟨hk, hrest⟩ := h
          subst hk
          by_cases h2 : k1 = k
          · simp [dset, h2, hrest]
          · simp [dset, h2, ih rest2 hrest]

theorem mem_dset {α : Type} {p : String × α} {m : List (String × α)}
    {k : String} {v : α} (h : p ∈ dset m k v) : p ∈ m ∨ p = (k, v) := by
  induction m with
  | nil => simp [dset] at h; simp [h]
  | cons q rest ih =>
      obtain ⟨k', w⟩ := q
      by_cases h2 : k' = k
      · simp [dset, h2] at h
        rcases h with h | h
        · right; simp [h]
        · left; simp [h]
      · simp [dset, h2] at h
        rcases h with h | h
        · left; simp [h]
        · rcases ih h with h3 | h3
          · left; simp [h3]
          · right; exact h3

/-! ## Fallback-merge lemmas -/

theorem mergeFallback_cons (llm : List (String × Option Val)) (g : String)
    (rest : List String) (fields : List (String × Option Val))
    (sources : List (String × String)) :
    mergeFallback llm (g :: rest) (fields, sources) =
      match pyGet llm g with
      | some v =>
          mergeFallback llm rest (dset fields g (some v), dset sources g "llm")
      | none => mergeFallback llm rest (fields, sources) := rfl

theorem mergeFallback_empty (ms : List String)
    (acc : List (String × Option Val) × List (String × String)) :
    mergeFallback [] ms acc = acc := by
  induction ms generalizing acc with
  | nil => rfl
  | cons f rest ih =>
      obtain ⟨fields, sources⟩ := acc
      have hc : pyGet [] f = none := rfl
      rw [mergeFallback_cons, hc]
      exact ih _

theorem mergeFallback_preserves (llm : List (String × Option Val))
    (ms : List String) (acc : List (String × Option Val) × List (String × String))
    (f : String) (h : f ∉ ms) :
    dget (mergeFallback llm ms acc).1 f = dget acc.1 f := by
  induction ms generalizing acc with
  | nil => rfl
  | cons g rest ih =>
      obtain ⟨fields, sources⟩ := acc
      have hne : g ≠ f := by
        intro he; exact h (by simp [he])
      have hrest : f ∉ rest := by
        intro he; exact h (by simp [he])
      cases hc : pyGet llm g with
      | some v =>
          rw [mergeFallback_cons, hc]
          show dget (mergeFallback llm rest
            (dset fields g (some v), dset sources g "llm")).1 f = dget fields f
          rw [ih _ hrest]
          exact dget_dset_ne fields g f (some v) hne
      | none =>
          rw [mergeFallback_cons, hc]
          exact ih _ hrest

theorem mergeFallback_get_cases (llm : List (String × Option Val))
    (ms : List String) (acc : List (String × Option Val) × List (String × String))
    (f : String) (w : Option Val)
    (h : dget (mergeFallback llm ms acc).1 f = some w) :
    dget acc.1 f = some w ∨ (f ∈ ms ∧ ∃ v, pyGet llm f = some v ∧ w = some v) := by
  induction ms generalizing acc with
  | nil => exact Or.inl h
  | cons g rest ih =>
      obtain ⟨fields, sources⟩ := acc
      rw [mergeFallback_cons] at h
      cases hc : pyGet llm g with
      | some v =>
          rw [hc] at h
          rcases ih _ h with h2 | h2
          · by_cases he : g = f
            · subst he
              rw [dget_dset_self] at h2
              right
              refine ⟨by simp, v, hc, ?_⟩
              exact ((Option.some.injEq _ _).mp h2).symm
            · rw [dget_dset_ne fields g f (some v) he] at h2
              exact Or.inl h2
          · exact Or.inr ⟨by simp [h2.1], h2.2⟩
      | none =>
          rw [hc] at h
          rcases ih _ h with h2 | h2
          · exact Or.inl h2
          · exact Or.inr ⟨by simp [h2.1], h2.2⟩

theorem mergeFallback_keys (llm : List (String × Option Val))
    (ms : List String) (acc : List (String × Option Val) × List (String × String))
    (h : acc.1.map Prod.fst = acc.2.map Prod.fst) :
    (mergeFallback llm ms acc).1.map Prod.fst
      = (mergeFallback llm ms acc).2.map Prod.fst := by
  induction ms generalizing acc with
  | nil => exact h
  | cons g rest ih =>
      obtain ⟨fields, sources⟩ := acc
      rw [mergeFallback_cons]
      cases hc : pyGet llm g with
      | some v =>
          exact ih _ (keys_dset_congr fields sources g (some v) "llm" h)
      | none =>
          exact ih _ h

theorem mergeFallback_no_null (llm : List (String × Option Val))
    (ms : List String) (acc : List (String × Option Val) × List (String × String))
    (h : ∀ p ∈ acc.1, p.2 ≠ none) :
    ∀ p ∈ (mergeFallback llm ms acc).1, p.2 ≠ none := by
  induction ms generalizing acc with
  | nil => exact h
  | cons g rest ih =>
      obtain ⟨fields, sources⟩ := acc
      rw [mergeFallback_cons]
      cases hc : pyGet llm g with
      | some v =>
          refine ih _ ?_
          intro p hp
          rcases mem_dset hp with h2 | h2
          · exact h p h2
          · simp [h2]
      | none =>
          exact ih _ h

/-! ## Reconciliation lemmas -/

theorem dget_append_of_none {α : Type} (l1 l2 : List (String × α)) (k : String)
    (h : dget l1 k = none) : dget (l1 ++ l2) k = dget l2 k := by
  induction l1 with
  | nil => rfl
  | cons p rest ih =>
      obtain ⟨k', v⟩ := p
      by_cases h2 : k' = k
      · simp [dget, h2] at h
      · simp [dget, h2] at h ⊢
        exact ih h

theorem dget_append_single_ne {α : Type} (l : List (String × α))
    (g f : String) (x : α) (h : g ≠ f) : dget (l ++ [(g, x)]) f = dget l f := by
  induction l with
  | nil => simp [dget, h]
  | cons p rest ih =>
      obtain ⟨k', v⟩ := p
      by_cases h2 : k' = f
      · simp [dget, h2]
      · simp [dget, h2, ih]

theorem applyOverrideFields_absent (orig : List (String × Option Val)) :
    ∀ (items gt : List (String × Option Val))
      (acc : List (String × (Option Val × Option Val))) (f : String),
    f ∉ items.map Prod.fst →
    dget (applyOverrideFields orig items gt acc).1 f = dget gt f ∧
    dget (applyOverrideFields orig items gt acc).2 f = dget acc f := by
  intro items
  induction items with
  | nil => intro gt acc f _; exact ⟨rfl, rfl⟩
  | cons p rest ih =>
      intro gt acc f hf
      obtain ⟨g, w⟩ := p
      have hgf : g ≠ f := by
        intro he; exact hf (by simp [he])
      have hrest : f ∉ rest.map Prod.fst := by
        intro he; exact hf (by simp [he])
      by_cases hcase : pyGet orig g = w
      · simp only [applyOverrideFields, hcase, if_pos rfl]
        simpa [hcase] using ih gt acc f hrest
      · simp only [applyOverrideFields, if_neg hcase]
        have h2 := ih (dset gt g w) (acc ++ [(g, (pyGet orig g, w))]) f hrest
        rw [dget_dset_ne gt g f w hgf] at h2
        rw [dget_append_single_ne acc g f _ hgf] at h2
        exact h2

theorem applyOverrideFields_adopts (orig : List (String × Option Val)) :
    ∀ (items gt : List (String × Option Val))
      (acc : List (String × (Option Val × Option Val))) (f : String) (v : Option Val),
    (items.map Prod.fst).Nodup → (f, v) ∈ items → pyGet orig f ≠ v →
    dget acc f = none →
    dget (applyOverrideFields orig items gt acc).1 f = some v ∧
    dget (applyOverrideFields orig items gt acc).2 f = some (pyGet orig f, v) := by
  intro items
  induction items with
  | nil => intro gt acc f v _ hmem; exact absurd hmem (by simp)
  | cons p rest ih =>
      intro gt acc f v hnodup hmem hne hacc
      obtain ⟨g, w⟩ := p
      rw [List.map_cons] at hnodup
      have hg_notin : g ∉ rest.map Prod.fst := (List.nodup_cons.mp hnodup).1
      have hnodup2 : (rest.map Prod.fst).Nodup := (List.nodup_cons.mp hnodup).2
      rcases List.mem_cons.mp hmem with heq | hrest
      · have hf : f = g := congrArg Prod.fst heq
        have hv : v = w := congrArg Prod.snd heq
        subst hf; subst hv
        simp only [applyOverrideFields, if_neg hne]
        have habs := applyOverrideFields_absent orig rest (dset gt f v)
          (acc ++ [(f, (pyGet orig f, v))]) f hg_notin
        rw [dget_dset_self] at habs
        rw [dget_append_of_none acc _ f hacc] at habs
        have hone : dget [(f, (pyGet orig f, v))] f = some (pyGet orig f, v) := by
          simp [dget]
        rw [hone] at habs
        exact habs
      · have hfg : f ≠ g := by
          intro he
          subst he
          exact hg_notin (List.mem_map_of_mem Prod.fst hrest)
        by_cases hcase : pyGet orig g = w
        · simp only [applyOverrideFields, hcase, if_pos rfl]
          exact ih gt acc f v hnodup2 hrest hne hacc
        · simp only [applyOverrideFields, if_neg hcase]
          refine ih (dset gt g w) (acc ++ [(g, (pyGet orig g, w))]) f v hnodup2 hrest hne ?_
          rw [dget_append_single_ne acc g f _ (Ne.symm hfg)]
          exact hacc

theorem applyOverrideFields_noop (orig : List (String × Option Val)) :
    ∀ (items gt : List (String × Option Val))
      (acc : List (String × (Option Val × Option Val))),
    (∀ p ∈ items, pyGet orig p.1 = p.2) →
    applyOverrideFields orig items gt acc = (gt, acc) := by
  intro items
  induction items with
  | nil => intro gt acc _; rfl
  | cons p rest ih =>
      intro gt acc h
      obtain ⟨g, w⟩ := p
      have hg : pyGet orig g = w := h (g, w) (by simp)
      simp only [applyOverrideFields, hg, if_pos rfl]
      exact ih gt acc (fun q hq => h q (by simp [hq]))

/-- C1: reconciliation is a pure function of the pair.  With no override
record the ground truth passes through unchanged with the explicit empty
audit block (`has_overrides` false, no overridden fields, null reason);
with an override record (a JSON object, so with distinct field names),
every overridden field whose value differs from the ground-truth value is
adopted as the final value and recorded in the audit trail as the pair
(original value, override value). -/
theorem C1_reconcile_pure :
    (∀ gt : List (String × Option Val),
      load_service_data_with_overrides gt none =
        { ground_truth := gt,
          override_info :=
            { has_overrides := false, overridden_fields := [], reason := none } }) ∧
    (∀ (gt : List (String × Option Val)) (od : OverrideData) (f : String)
        (v : Option Val),
      (od.ground_truth.map Prod.fst).Nodup → (f, v) ∈ od.ground_truth →
      pyGet gt f ≠ v →
      dget (load_service_data_with_overrides gt (some od)).ground_truth f = some v ∧
      dget (load_service_data_with_overrides gt
          (some od)).override_info.overridden_fields f = some (pyGet gt f, v)) := by
  constructor
  · intro gt; rfl
  · intro gt od f v hnodup hmem hne
    exact applyOverrideFields_adopts gt od.ground_truth gt [] f v hnodup hmem hne rfl

/-- Witness for C1 at the spec's example: ground truth `amount = 40`
overridden to `50` gives final amount `50` and the audit entry
`(40, 50)`. -/
theorem C1_reconcile_pure_witness :
    dget (load_service_data_with_overrides [("amount", some (Val.vInt 40))]
        (some { ground_truth := [("amount", some (Val.vInt 50))], reason := none })).ground_truth
        "amount" = some (some (Val.vInt 50)) ∧
    dget (load_service_data_with_overrides [("amount", some (Val.vInt 40))]
        (some { ground_truth := [("amount", some (Val.vInt 50))], reason := none })).override_info.overridden_fields
        "amount" = some (some (Val.vInt 40), some (Val.vInt 50)) := by
  have h := C1_reconcile_pure.2 [("amount", some (Val.vInt 40))]
    { ground_truth := [("amount", some (Val.vInt 50))], reason := none }
    "amount" (some (Val.vInt 50)) (by decide) (by decide) (by decide)
  exact h

/-- C6 counterexample: an override record whose single value equals the
ground-truth value yields no audit entries, yet `has_overrides` is
`true` — the flag reports the existence of the override record, not
whether any field was actually changed, refuting "has_overrides is true
only if at least one field was actually changed". -/
theorem C6_noop_override_counterexample :
    (load_service_data_with_overrides [("amount", some (Val.vInt 40))]
        (some { ground_truth := [("amount", some (Val.vInt 40))], reason := none })).override_info.overridden_fields
        = [] ∧
    (load_service_data_with_overrides [("amount", some (Val.vInt 40))]
        (some { ground_truth := [("amount", some (Val.vInt 40))], reason := none })).override_info.has_overrides
        = true := by
  decide

/-- C6 (amended): when an override record exists but every value it
names is identical to the corresponding ground-truth value,
reconciliation records no audit entry for any field and leaves the
ground truth unchanged; `has_overrides`, however, is `true` whenever an
override record exists, regardless of whether any field changed. -/
theorem C6_noop_override_no_audit (gt : List (String × Option Val))
    (od : OverrideData) (h : ∀ p ∈ od.ground_truth, pyGet gt p.1 = p.2) :
    load_service_data_with_overrides gt (some od) =
      { ground_truth := gt,
        override_info :=
          { has_overrides := true, overridden_fields := [],
            reason := od.reason } } := by
  show (let applied := applyOverrideFields gt od.ground_truth gt [];
    ({ ground_truth := applied.1,
       override_info :=
         { has_overrides := true, overridden_fields := applied.2,
           reason := od.reason } } : VerifiedData)) = _
  rw [applyOverrideFields_noop gt od.ground_truth gt [] h]

/-- Witness for C6's amended theorem at a concrete no-op override. -/
theorem C6_noop_override_no_audit_witness :
    load_service_data_with_overrides [("amount", some (Val.vInt 40))]
        (some { ground_truth := [("amount", some (Val.vInt 40))],
                reason := some "fix" }) =
      { ground_truth := [("amount", some (Val.vInt 40))],
        override_info :=
          { has_overrides := true, overridden_fields := [],
            reason := some "fix" } } := by
  exact C6_noop_override_no_audit [("amount", some (Val.vInt 40))]
    { ground_truth := [("amount", some (Val.vInt 40))], reason := some "fix" }
    (by decide)

/-! ## C3, C4: the odometer repair heuristic -/

/-- C3 counterexample: at `n = 2200000` every condition of the claim's
repair clause holds — `n > 1,000,000`, the decimal representation starts
with digit 2, and the stripped value `200000` lies in `[200000, 500000)`
— yet `_parse_odometer` returns `n` unchanged instead of the stripped
value, because the source checks `200000 < fixed_km`, strictly. -/
theorem C3_parse_odometer_boundary_counterexample :
    2200000 > 1000000 ∧ (decimalDigits 2200000).head? = some 2 ∧
    natOfDigits (decimalDigits 2200000).tail = 200000 ∧
    parse_odometer 2200000 = 2200000 := by decide

/-- C3 (amended): `_parse_odometer` returns the leading-digit-stripped
value exactly when the reading exceeds 1,000,000, its decimal
representation starts with digit 2, and the stripped value lies in the
OPEN interval `(200000, 500000)` — in particular the boundary value
200000 is not adopted — and in every other case it returns the reading
unchanged. -/
theorem C3_parse_odometer_characterization (km : Nat) :
    ((km > 1000000 ∧ (decimalDigits km).head? = some 2 ∧
        200000 < natOfDigits (decimalDigits km).tail ∧
        natOfDigits (decimalDigits km).tail < 500000) →
      parse_odometer km = natOfDigits (decimalDigits km).tail) ∧
    (¬(km > 1000000 ∧ (decimalDigits km).head? = some 2 ∧
        200000 < natOfDigits (decimalDigits km).tail ∧
        natOfDigits (decimalDigits km).tail < 500000) →
      parse_odometer km = km) := by
  constructor
  · rintro ⟨h1, h2, h3, h4⟩
    simp [parse_odometer, h1, h2, h3, h4]
  · intro h
    by_cases h1 : km > 1000000 ∧ (decimalDigits km).head? = some 2
    · have h2 : ¬(200000 < natOfDigits (decimalDigits km).tail ∧
          natOfDigits (decimalDigits km).tail < 500000) := by
        intro hc
        exact h ⟨h1.1, h1.2, hc.1, hc.2⟩
      simp [parse_odometer, h1.1, h1.2, h2]
    · simp only [parse_odometer, if_neg h1]

/-- Witness for C3's amended theorem: the repair fires at 2387551
(stripped value 387551 lies strictly inside the range) and is inert at
the boundary instance 2200000. -/
theorem C3_parse_odometer_witness :
    parse_odometer 2387551 = 387551 ∧ parse_odometer 2200000 = 2200000 := by
  constructor
  · have h := (C3_parse_odometer_characterization 2387551).1 (by decide)
    rw [h]
    decide
  · exact (C3_parse_odometer_characterization 2200000).2 (by decide)

/-- C4: evaluating the `odometer_km` rule chain at the claim's inputs.
Rule 1's capture group `(\d{6})` takes only the first six digits of the
seven-digit reading, so `"Mittarilukema:\n2387551"` yields 238755 — not
the 387551 required by the claim and by `_parse_odometer`'s own
documented example (`2387551 -> 387551`, which the repair does produce
when given the full number) — and `"Mittarilukema:\n2611000"` yields
261100 instead of remaining 2611000.  Both truncated values fall inside
the plausible odometer range, so the wrong readings are produced
silently.  The outcomes of rules 2-4 are irrelevant (universally
quantified) because rule 1 matches first. -/
theorem C4_odometer_chain_truncates (laterA laterB : List (Option Nat)) :
    odometer_from_text (("Mittarilukema:\n2387551").toList) laterA = some 238755 ∧
    odometer_from_text (("Mittarilukema:\n2611000").toList) laterB = some 261100 ∧
    parse_odometer 2387551 = 387551 ∧
    (238755 : Nat) ≠ 387551 ∧ (261100 : Nat) ≠ 2611000 := by
  refine ⟨rfl, rfl, by decide, by decide, by decide⟩

/-! ## C5: Finnish date normalization -/

theorem foldl_digits_init (l : List Char) : ∀ a : Nat,
    l.foldl (fun x c => 10 * x + (c.toNat - 48)) a
      = a * 10 ^ l.length + l.foldl (fun x c => 10 * x + (c.toNat - 48)) 0 := by
  induction l with
  | nil => intro a; simp
  | cons c rest ih =>
      intro a
      simp only [List.foldl_cons, List.length_cons]
      rw [ih (10 * a + (c.toNat - 48))]
      rw [ih (10 * 0 + (c.toNat - 48))]
      ring

theorem natOfCharDigits_prefix20 (year : List Char) (h : year.length = 2) :
    natOfCharDigits ('2' :: '0' :: year) = 2000 + natOfCharDigits year := by
  show List.foldl _ _ ('2' :: '0' :: year) = _
  simp only [List.foldl_cons]
  have h2 : (10 * (10 * 0 + ('2'.toNat - 48)) + ('0'.toNat - 48)) = 20 := by decide
  rw [h2, foldl_digits_init year 20, h]
  rfl

theorem natOfCharDigits_prefix19 (year : List Char) (h : year.length = 2) :
    natOfCharDigits ('1' :: '9' :: year) = 1900 + natOfCharDigits year := by
  show List.foldl _ _ ('1' :: '9' :: year) = _
  simp only [List.foldl_cons]
  have h2 : (10 * (10 * 0 + ('1'.toNat - 48)) + ('9'.toNat - 48)) = 19 := by decide
  rw [h2, foldl_digits_init year 19, h]
  rfl

/-- C5: (a) every well-formed 4-digit-year Finnish date `DD.MM.YYYY`
normalizes to exactly the ISO string `YYYY-MM-DD` (zero-padded month and
day); (b) for 2-digit years the pivot maps `YY < 50` to `20YY` and
`YY ≥ 50` to `19YY` before the same validation and formatting; (c) an
invalid calendar date is rejected by the normalizer (`None`), so the
date rule chain proceeds to the ISO rule instead of producing a value.
The `1000 ≤ year` hypothesis in (a) keeps the statement within the
platform-independent behaviour of `strftime("%Y")`. -/
theorem C5_finnish_date_normalization :
    (∀ day month year : List Char, year.length = 4 →
      1000 ≤ natOfCharDigits year →
      validDate (natOfCharDigits year) (natOfCharDigits month)
        (natOfCharDigits day) = true →
      parse_finnish_date day month year =
        some (formatYMD (natOfCharDigits year) (natOfCharDigits month)
          (natOfCharDigits day))) ∧
    (∀ day month year : List Char, year.length = 2 →
      (natOfCharDigits year < 50 →
        parse_finnish_date day month year =
          (if validDate (2000 + natOfCharDigits year) (natOfCharDigits month)
              (natOfCharDigits day) then
            some (formatYMD (2000 + natOfCharDigits year) (natOfCharDigits month)
              (natOfCharDigits day))
          else none)) ∧
      (50 ≤ natOfCharDigits year →
        parse_finnish_date day month year =
          (if validDate (1900 + natOfCharDigits year) (natOfCharDigits month)
              (natOfCharDigits day) then
            some (formatYMD (1900 + natOfCharDigits year) (natOfCharDigits month)
              (natOfCharDigits day))
          else none))) ∧
    (∀ (day month year : List Char)
        (m2 : Option (List Char × List Char × List Char)),
      year.length = 4 →
      validDate (natOfCharDigits year) (natOfCharDigits month)
        (natOfCharDigits day) = false →
      parse_finnish_date day month year = none ∧
      dateFieldChain (some (day, month, year)) m2 =
        m2.bind (fun g => parse_iso_date g.1 g.2.1 g.2.2)) := by
  refine ⟨?_, ?_, ?_⟩
  · intro day month year hlen _ hvalid
    have hne : ¬(year.length = 2) := by rw [hlen]; decide
    simp [parse_finnish_date, hne, hvalid]
  · intro day month year hlen
    constructor
    · intro hlt
      simp only [parse_finnish_date, if_pos hlen, if_pos hlt]
      rw [natOfCharDigits_prefix20 year hlen]
    · intro hge
      have hlt : ¬(natOfCharDigits year < 50) := by omega
      simp only [parse_finnish_date, if_pos hlen, if_neg hlt]
      rw [natOfCharDigits_prefix19 year hlen]
  · intro day month year m2 hlen hinvalid
    have hne : ¬(year.length = 2) := by rw [hlen]; decide
    have hnone : parse_finnish_date day month year = none := by
      simp [parse_finnish_date, hne, hinvalid]
    refine ⟨hnone, ?_⟩
    simp [dateFieldChain, hnone]

/-- Witness for C5 at concrete dates: `15.5.2009` normalizes to
`2009-05-15`, the 2-digit year `7.3.99` pivots to `1999-03-07`, and the
invalid `1.13.2020` falls through to the ISO rule, which here matches
`2020-05-15`. -/
theorem C5_finnish_date_witness :
    parse_finnish_date (("15").toList) (("5").toList) (("2009").toList)
      = some ("2009-05-15") ∧
    parse_finnish_date (("7").toList) (("3").toList) (("99").toList)
      = some ("1999-03-07") ∧
    dateFieldChain (some ((("1").toList, ("13").toList, ("2020").toList)))
        (some ((("2020").toList, ("05").toList, ("15").toList)))
      = some ("2020-05-15") := by
  refine ⟨?_, ?_, ?_⟩
  · have h := C5_finnish_date_normalization.1 (("15").toList) (("5").toList)
      (("2009").toList) (by decide) (by decide) (by decide)
    rw [h]
    decide
  · have h := (C5_finnish_date_normalization.2.1 (("7").toList) (("3").toList)
      (("99").toList) (by decide)).2 (by decide)
    rw [h]
    decide
  · have h := (C5_finnish_date_normalization.2.2 (("1").toList) (("13").toList)
      (("2020").toList) (some ((("2020").toList, ("05").toList, ("15").toList)))
      (by decide) (by decide)).2
    rw [h]
    decide

/-! ## Pipeline lemmas -/

/-- `final_extracted_fields` right after pattern parsing: the parsed
fields injected into the JSON-value dict (all values non-null). -/
def patternBase (env : PipelineEnv) : List (String × Option Val) :=
  (parsingFields env.parse).map (fun q => (q.1, some q.2))

/-- `field_sources` right after pattern parsing. -/
def patternSources (env : PipelineEnv) : List (String × String) :=
  (parsingFields env.parse).map (fun q => (q.1, "parsing"))

theorem process_pdf_noText (mode : Mode) (env : PipelineEnv)
    (h : hasText env.ocrText = false) :
    process_pdf mode env =
      { final_data := [], steps := ["ocr"],
        metadata := { error := some "OCR failed to extract text",
                      field_sources := none } } := by
  unfold process_pdf
  rw [h]
  simp

theorem process_pdf_withText (mode : Mode) (env : PipelineEnv)
    (h : hasText env.ocrText = true) :
    process_pdf mode env =
      { final_data :=
          (addWorkDescription env.work_desc (stageOf mode env).1
            (stageOf mode env).2.1).1,
        steps := (stageOf mode env).2.2,
        metadata :=
          { error := none,
            field_sources :=
              some (addWorkDescription env.work_desc (stageOf mode env).1
                (stageOf mode env).2.1).2 } } := by
  unfold process_pdf
  rw [h]
  simp

theorem stageOf_full (env : PipelineEnv) :
    stageOf Mode.full_pipeline env =
      (if missingRequired (patternBase env) = [] then
        (patternBase env, patternSources env, ["ocr", "parsing"])
      else
        ((mergeFallback (run_llm_extraction env.llm).extracted_fields
            (missingRequired (patternBase env))
            (patternBase env, patternSources env)).1,
         (mergeFallback (run_llm_extraction env.llm).extracted_fields
            (missingRequired (patternBase env))
            (patternBase env, patternSources env)).2,
         ["ocr", "parsing", "llm_extraction"])) := rfl

theorem dget_map_value {α β : Type} (g : α → β) (m : List (String × α))
    (f : String) :
    dget (m.map (fun q => (q.1, g q.2))) f = (dget m f).map g := by
  induction m with
  | nil => rfl
  | cons p rest ih =>
      obtain ⟨k, v⟩ := p
      by_cases h : k = f
      · simp [dget, h]
      · simp [dget, h, ih]

theorem dget_eq_none_of_not_mem {α : Type} (m : List (String × α)) (f : String)
    (h : f ∉ m.map Prod.fst) : dget m f = none := by
  induction m with
  | nil => rfl
  | cons p rest ih =>
      obtain ⟨k, v⟩ := p
      have hk : k ≠ f := by
        intro he; exact h (by simp [he])
      have hrest : f ∉ rest.map Prod.fst := by
        intro he; exact h (by simp [he])
      simp [dget, hk, ih hrest]

theorem dget_filterMap_none (l : List (String × Option Val)) (f : String)
    (h : dget l f = none) :
    dget (l.filterMap (fun q => q.2.map (fun v => (q.1, v)))) f = none := by
  induction l with
  | nil => rfl
  | cons p rest ih =>
      obtain ⟨k, ov⟩ := p
      by_cases hk : k = f
      · simp [dget, hk] at h
      · simp only [dget, if_neg hk] at h
        cases ov with
        | some v => simp [List.filterMap_cons, dget, hk, ih h]
        | none => simp [List.filterMap_cons, ih h]

theorem dget_filterMap_join (l : List (String × Option Val)) (f : String)
    (hnd : (l.map Prod.fst).Nodup) :
    dget (l.filterMap (fun q => q.2.map (fun v => (q.1, v)))) f
      = (dget l f).join := by
  induction l with
  | nil => rfl
  | cons p rest ih =>
      obtain ⟨k, ov⟩ := p
      rw [List.map_cons] at hnd
      have hk_notin : k ∉ rest.map Prod.fst := (List.nodup_cons.mp hnd).1
      have hnd2 : (rest.map Prod.fst).Nodup := (List.nodup_cons.mp hnd).2
      by_cases hk : k = f
      · subst hk
        cases ov with
        | some v => simp [List.filterMap_cons, dget]
        | none =>
            have hnone : dget rest k = none :=
              dget_eq_none_of_not_mem rest k hk_notin
            simp [List.filterMap_cons, dget, dget_filterMap_none rest k hnone]
      · cases ov with
        | some v => simp [List.filterMap_cons, dget, hk, ih hnd2]
        | none => simp [List.filterMap_cons, dget, hk, ih hnd2]

theorem parsingFields_no_work (p : ParseOutcome) :
    dget (parsingFields p) "work_description" = none := by
  apply dget_filterMap_none
  rfl

theorem mem_map_value_ne_none (pf : List (String × Val)) :
    ∀ q ∈ pf.map (fun r => (r.1, some r.2)), q.2 ≠ (none : Option Val) := by
  intro q hq
  rcases List.mem_map.mp hq with ⟨r, _, hr⟩
  rw [← hr]
  simp

theorem mem_missingRequired {α : Type} (fields : List (String × α)) (f : String) :
    f ∈ missingRequired fields ↔ f ∈ requiredFields ∧ dget fields f = none := by
  unfold missingRequired
  rw [List.mem_filter]
  simp [Option.isNone_iff_eq_none]

theorem addWork_keys (work : List String) (fields : List (String × Option Val))
    (sources : List (String × String))
    (h : fields.map Prod.fst = sources.map Prod.fst) :
    (addWorkDescription work fields sources).1.map Prod.fst
      = (addWorkDescription work fields sources).2.map Prod.fst := by
  unfold addWorkDescription
  by_cases hw : work = []
  · rw [if_pos hw]; exact h
  · rw [if_neg hw]
    exact keys_dset_congr fields sources "work_description" _ _ h

theorem addWork_mem (work : List String) (fields : List (String × Option Val))
    (sources : List (String × String)) :
    ∀ p ∈ (addWorkDescription work fields sources).1,
      p ∈ fields ∨ p = ("work_description", some (Val.vStrList work)) := by
  unfold addWorkDescription
  by_cases hw : work = []
  · rw [if_pos hw]; intro p hp; exact Or.inl hp
  · rw [if_neg hw]; intro p hp; exact mem_dset hp

theorem addWork_dget_ne (work : List String) (fields : List (String × Option Val))
    (sources : List (String × String)) (f : String)
    (h : f ≠ "work_description") :
    dget (addWorkDescription work fields sources).1 f = dget fields f := by
  unfold addWorkDescription
  by_cases hw : work = []
  · rw [if_pos hw]
  · rw [if_neg hw]
    exact dget_dset_ne fields "work_description" f _ (Ne.symm h)

theorem stage_keys (mode : Mode) (env : PipelineEnv) :
    (stageOf mode env).1.map Prod.fst = (stageOf mode env).2.1.map Prod.fst := by
  cases mode with
  | ocr_only => rfl
  | pattern_only =>
      show (patternBase env).map Prod.fst = (patternSources env).map Prod.fst
      unfold patternBase patternSources
      simp only [List.map_map]
      rfl
  | llm_only =>
      show ((run_llm_extraction env.llm).extracted_fields).map Prod.fst
        = ((run_llm_extraction env.llm).extracted_fields.map
            (fun q => (q.1, "llm"))).map Prod.fst
      simp only [List.map_map]
      rfl
  | full_pipeline =>
      rw [stageOf_full]
      by_cases hm : missingRequired (patternBase env) = []
      · rw [if_pos hm]
        show (patternBase env).map Prod.fst = (patternSources env).map Prod.fst
        unfold patternBase patternSources
        simp only [List.map_map]
        rfl
      · rw [if_neg hm]
        refine mergeFallback_keys _ _ (patternBase env, patternSources env) ?_
        show (patternBase env).map Prod.fst = (patternSources env).map Prod.fst
        unfold patternBase patternSources
        simp only [List.map_map]
        rfl

theorem stage_no_null (mode : Mode) (env : PipelineEnv)
    (hm : mode ≠ Mode.llm_only) :
    ∀ p ∈ (stageOf mode env).1, p.2 ≠ none := by
  cases mode with
  | llm_only => exact absurd rfl hm
  | ocr_only => intro p hp; cases hp
  | pattern_only =>
      intro p hp
      exact mem_map_value_ne_none (parsingFields env.parse) p hp
  | full_pipeline =>
      rw [stageOf_full]
      by_cases hmiss : missingRequired (patternBase env) = []
      · rw [if_pos hmiss]
        intro p hp
        exact mem_map_value_ne_none (parsingFields env.parse) p hp
      · rw [if_neg hmiss]
        intro p hp
        refine mergeFallback_no_null _ _ (patternBase env, patternSources env)
          ?_ p hp
        intro q hq
        exact mem_map_value_ne_none (parsingFields env.parse) q hq

/-! ## C8, C9: error handling -/

/-- C8: whenever the OCR step yields no usable text (empty text, or no
text at all because OCR raised), `process_pdf` returns a result with
zero `final_data` fields and the explicit metadata error
"OCR failed to extract text", and halts after the OCR step — no parsing
or LLM step runs (`steps = ["ocr"]`) — in every pipeline mode; being a
total function, it raises no exception. -/
theorem C8_empty_ocr_halts (mode : Mode) (env : PipelineEnv)
    (h : hasText env.ocrText = false) :
    process_pdf mode env =
      { final_data := [], steps := ["ocr"],
        metadata := { error := some "OCR failed to extract text",
                      field_sources := none } } :=
  process_pdf_noText mode env h

/-- Witness for C8 at empty OCR text in full-pipeline mode. -/
theorem C8_empty_ocr_halts_witness :
    process_pdf Mode.full_pipeline
      { ocrText := some "", parse := ⟨none, none, none, none, none, none⟩,
        llm := LLMEnv.call (LLMCall.ok [] ""), work_desc := [] } =
      { final_data := [], steps := ["ocr"],
        metadata := { error := some "OCR failed to extract text",
                      field_sources := none } } :=
  C8_empty_ocr_halts Mode.full_pipeline
    { ocrText := some "", parse := ⟨none, none, none, none, none, none⟩,
      llm := LLMEnv.call (LLMCall.ok [] ""), work_desc := [] }
    (by decide)

/-- C9: every failure of the fallback LLM call — a network/timeout/parse
exception inside `extract_from_text`, or an exception around the call —
yields an empty extracted-field set together with an explicit error
marker in that step's record, and no exception propagates (the model
functions are total); the orchestrator then behaves exactly as on a
successful call that recovered no fields: the fallback merge leaves the
final dict and sources untouched, and the whole pipeline result equals
the result of a run whose LLM returned an empty field set. -/
theorem C9_llm_failure_is_soft (msg raw : String) (t : Option String)
    (p : ParseOutcome) (w ms : List String)
    (base : List (String × Option Val)) (srcs : List (String × String)) :
    extract_from_text (LLMCall.exn msg) =
      { extracted_fields := [], missing_fields := ["error"],
        error := some msg, raw_response := none } ∧
    run_llm_extraction (LLMEnv.call (LLMCall.exn msg)) =
      { extracted_fields := [], missing_fields := [], error := some msg } ∧
    run_llm_extraction (LLMEnv.raise msg) =
      { extracted_fields := [], missing_fields := [], error := some msg } ∧
    mergeFallback (run_llm_extraction (LLMEnv.call (LLMCall.exn msg))).extracted_fields
      ms (base, srcs) = (base, srcs) ∧
    process_pdf Mode.full_pipeline
        { ocrText := t, parse := p, llm := LLMEnv.call (LLMCall.exn msg),
          work_desc := w }
      = process_pdf Mode.full_pipeline
        { ocrText := t, parse := p, llm := LLMEnv.call (LLMCall.ok [] raw),
          work_desc := w } := by
  refine ⟨rfl, rfl, rfl, mergeFallback_empty ms (base, srcs), rfl⟩

/-! ## C2: fallback never overwrites pattern values -/

/-- C2: in full-pipeline mode, (1) every field the pattern stage
extracted keeps its pattern-derived value in `final_data`; (2) every
`final_data` entry is either pattern-derived, or the `work_description`
entry, or a required field the pattern stage left absent filled with the
LLM value — so fallback values are accepted for exactly the missing
required fields and never replace a pattern-derived value. -/
theorem C2_fallback_never_overwrites (env : PipelineEnv)
    (h : hasText env.ocrText = true) :
    (∀ f v, dget (parsingFields env.parse) f = some v →
      dget (process_pdf Mode.full_pipeline env).final_data f = some (some v)) ∧
    (∀ f w, dget (process_pdf Mode.full_pipeline env).final_data f = some w →
      (∃ v, dget (parsingFields env.parse) f = some v ∧ w = some v) ∨
      f = "work_description" ∨
      (f ∈ requiredFields ∧ dget (parsingFields env.parse) f = none ∧
        ∃ v, pyGet (run_llm_extraction env.llm).extracted_fields f = some v ∧
          w = some v)) := by
  constructor
  · intro f v hv
    rw [process_pdf_withText Mode.full_pipeline env h]
    have hbase : dget (patternBase env) f = some (some v) := by
      unfold patternBase
      rw [dget_map_value, hv]
      rfl
    have hfne : f ≠ "work_description" := by
      intro he
      rw [he, parsingFields_no_work] at hv
      cases hv
    show dget (addWorkDescription env.work_desc (stageOf Mode.full_pipeline env).1
      (stageOf Mode.full_pipeline env).2.1).1 f = some (some v)
    rw [addWork_dget_ne _ _ _ f hfne]
    rw [stageOf_full]
    by_cases hmiss : missingRequired (patternBase env) = []
    · rw [if_pos hmiss]
      exact hbase
    · rw [if_neg hmiss]
      have hnot : f ∉ missingRequired (patternBase env) := by
        intro hmem
        have h2 := ((mem_missingRequired (patternBase env) f).mp hmem).2
        rw [hbase] at h2
        cases h2
      show dget (mergeFallback (run_llm_extraction env.llm).extracted_fields
        (missingRequired (patternBase env))
        (patternBase env, patternSources env)).1 f = some (some v)
      rw [mergeFallback_preserves _ _ _ f hnot]
      exact hbase
  · intro f w hw
    rw [process_pdf_withText Mode.full_pipeline env h] at hw
    by_cases hfw : f = "work_description"
    · exact Or.inr (Or.inl hfw)
    · replace hw : dget (addWorkDescription env.work_desc
        (stageOf Mode.full_pipeline env).1
        (stageOf Mode.full_pipeline env).2.1).1 f = some w := hw
      rw [addWork_dget_ne _ _ _ f hfw] at hw
      rw [stageOf_full] at hw
      by_cases hmiss : missingRequired (patternBase env) = []
      · rw [if_pos hmiss] at hw
        replace hw : dget (patternBase env) f = some w := hw
        unfold patternBase at hw
        rw [dget_map_value] at hw
        cases hp : dget (parsingFields env.parse) f with
        | none => rw [hp] at hw; cases hw
        | some v =>
            rw [hp] at hw
            exact Or.inl ⟨v, rfl, ((Option.some.injEq _ _).mp hw).symm⟩
      · rw [if_neg hmiss] at hw
        replace hw : dget (mergeFallback
          (run_llm_extraction env.llm).extracted_fields
          (missingRequired (patternBase env))
          (patternBase env, patternSources env)).1 f = some w := hw
        rcases mergeFallback_get_cases _ _ _ f w hw with hc | hc
        · replace hc : dget (patternBase env) f = some w := hc
          unfold patternBase at hc
          rw [dget_map_value] at hc
          cases hp : dget (parsingFields env.parse) f with
          | none => rw [hp] at hc; cases hc
          | some v =>
              rw [hp] at hc
              exact Or.inl ⟨v, rfl, ((Option.some.injEq _ _).mp hc).symm⟩
        · obtain ⟨hmem, v, hv, hwv⟩ := hc
          have h2 := (mem_missingRequired (patternBase env) f).mp hmem
          refine Or.inr (Or.inr ⟨h2.1, ?_, v, hv, hwv⟩)
          have h3 := h2.2
          unfold patternBase at h3
          rw [dget_map_value] at h3
          cases hp : dget (parsingFields env.parse) f with
          | none => rfl
          | some v2 => rw [hp] at h3; cases h3

/-- Witness for C2: the pattern stage found `amount = 40`; the LLM would
report `amount = 99`, but the final value is the pattern's 40. -/
theorem C2_fallback_never_overwrites_witness :
    dget (process_pdf Mode.full_pipeline
      { ocrText := some "x",
        parse := ⟨none, some (Val.vInt 40), none, none, none,
          some (Val.vStr "Veho Autotalot Oy")⟩,
        llm := LLMEnv.call (LLMCall.ok
          [("amount", some (Val.vInt 99)),
           ("date", some (Val.vStr "2009-05-15"))] "r"),
        work_desc := [] }).final_data "amount" = some (some (Val.vInt 40)) :=
  (C2_fallback_never_overwrites
    { ocrText := some "x",
      parse := ⟨none, some (Val.vInt 40), none, none, none,
        some (Val.vStr "Veho Autotalot Oy")⟩,
      llm := LLMEnv.call (LLMCall.ok
        [("amount", some (Val.vInt 99)),
         ("date", some (Val.vStr "2009-05-15"))] "r"),
      work_desc := [] } (by decide)).1 "amount" (Val.vInt 40) (by decide)

/-! ## C7: absence is an absent key -/

/-- C7 counterexample: in `llm_only` mode the LLM's parsed JSON object is
adopted verbatim, so an LLM response `{"date": null}` puts a null-valued
key into `final_data` — refuting "the mapping never contains a
null-valued key" for every mode. -/
theorem C7_llm_only_null_counterexample :
    ("date", (none : Option Val)) ∈
      (process_pdf Mode.llm_only
        { ocrText := some "x",
          parse := ⟨none, none, none, none, none, none⟩,
          llm := LLMEnv.call (LLMCall.ok [("date", none)] "raw"),
          work_desc := [] }).final_data := by
  decide

/-- C7 (amended): in `ocr_only`, `pattern_only` and `full_pipeline`
modes, every `final_data` entry has a non-null value — a field is
present only when some rule succeeded (pattern values and the merged
LLM values are filtered for `None`), and absence is an absent key.  In
`llm_only` mode the LLM step's mapping is adopted verbatim and may
contain null-valued keys. -/
theorem C7_no_null_outside_llm_only (mode : Mode) (env : PipelineEnv)
    (hm : mode ≠ Mode.llm_only) :
    ∀ p ∈ (process_pdf mode env).final_data, p.2 ≠ none := by
  by_cases h : hasText env.ocrText = true
  · rw [process_pdf_withText mode env h]
    intro p hp
    replace hp : p ∈ (addWorkDescription env.work_desc (stageOf mode env).1
      (stageOf mode env).2.1).1 := hp
    rcases addWork_mem _ _ _ p hp with h2 | h2
    · exact stage_no_null mode env hm p h2
    · rw [h2]
      simp
  · have h2 : hasText env.ocrText = false := by
      revert h
      cases hasText env.ocrText <;> simp
    rw [process_pdf_noText mode env h2]
    intro p hp
    cases hp

/-- Witness for C7's amended theorem: a pattern-extracted entry has a
non-null value. -/
theorem C7_no_null_outside_llm_only_witness :
    (("amount", some (Val.vInt 40)) : String × Option Val).2 ≠ none :=
  C7_no_null_outside_llm_only Mode.pattern_only
    { ocrText := some "x",
      parse := ⟨none, some (Val.vInt 40), none, none, none, none⟩,
      llm := LLMEnv.call (LLMCall.ok [] "r"), work_desc := [] }
    (by decide) ("amount", some (Val.vInt 40)) (by decide)

/-! ## C10: field sources track final fields -/

/-- C10: whenever `process_pdf` runs on non-empty OCR text, in every
mode, `metadata.field_sources` is present and its key list equals the
key list of `final_data` — every final field has exactly one recorded
source stage and no source is recorded for an absent field. -/
theorem C10_field_sources_keys (mode : Mode) (env : PipelineEnv)
    (h : hasText env.ocrText = true) :
    (process_pdf mode env).metadata.field_sources.map (fun l => l.map Prod.fst)
      = some ((process_pdf mode env).final_data.map Prod.fst) := by
  rw [process_pdf_withText mode env h]
  show some ((addWorkDescription env.work_desc (stageOf mode env).1
      (stageOf mode env).2.1).2.map Prod.fst)
    = some ((addWorkDescription env.work_desc (stageOf mode env).1
      (stageOf mode env).2.1).1.map Prod.fst)
  exact congrArg some (addWork_keys _ _ _ (stage_keys mode env)).symm

/-- Witness for C10 in full-pipeline mode with an LLM-merged field and a
work description present. -/
theorem C10_field_sources_keys_witness :
    (process_pdf Mode.full_pipeline
      { ocrText := some "x",
        parse := ⟨none, some (Val.vInt 40), none, none, none,
          some (Val.vStr "Veho Autotalot Oy")⟩,
        llm := LLMEnv.call (LLMCall.ok
          [("date", some (Val.vStr "2009-05-15"))] "r"),
        work_desc := ["Huolto"] }).metadata.field_sources.map
        (fun l => l.map Prod.fst)
      = some ((process_pdf Mode.full_pipeline
        { ocrText := some "x",
          parse := ⟨none, some (Val.vInt 40), none, none, none,
            some (Val.vStr "Veho Autotalot Oy")⟩,
          llm := LLMEnv.call (LLMCall.ok
            [("date", some (Val.vStr "2009-05-15"))] "r"),
          work_desc := ["Huolto"] }).final_data.map Prod.fst) :=
  C10_field_sources_keys Mode.full_pipeline
    { ocrText := some "x",
      parse := ⟨none, some (Val.vInt 40), none, none, none,
        some (Val.vStr "Veho Autotalot Oy")⟩,
      llm := LLMEnv.call (LLMCall.ok
        [("date", some (Val.vStr "2009-05-15"))] "r"),
      work_desc := ["Huolto"] } (by decide)
